import Mathlib

/-!
Verification development for the excel-craft workbook library.

The development shallowly embeds the core of the library:

* `NativeExcelParser` (`src/core/xmlParser.ts`, second document): sheet
  parsing, cell lookup/creation, cell-content replacement and the
  cell-reference validator;
* `ExcelWorkbook` (`src/core/workbook.ts`): the read/update/write session.

XML documents are represented by their DOM trees directly: the library's
`DOMParser.parseFromString` / `XMLSerializer.serializeToString` round-trip
(an external collaborator per the design) is the identity on this
representation.  JavaScript `Map`s are modelled as insertion-ordered
association lists.  Machine integers do not occur; row numbers are `Nat`.
Fallible operations return `Except XErr`.
-/

set_option linter.unusedVariables false

deriving instance DecidableEq for Except

namespace Excel

/-- Characters `A`–`Z`, the character class of the `[A-Z]+` group in
`NativeExcelParser.parseCellRef`. -/
def isUpperAZ (c : Char) : Bool := 'A' ≤ c && c ≤ 'Z'

/-- Decimal digit characters, the character class of `\d` in the source
regular expressions. -/
def isDigitC (c : Char) : Bool := '0' ≤ c && c ≤ '9'

/-- Numeric value of a digit string (base 10). -/
def digitsVal (cs : List Char) : Nat :=
  cs.foldl (fun a c => a * 10 + (c.toNat - 48)) 0

/-- JavaScript `parseInt(s)` restricted to the shapes this code base feeds
it: the longest leading run of decimal digits is evaluated; if there is
none the result is `NaN`, modelled as `none`.  (Sign and whitespace
handling are elided: every string the program passes to `parseInt` is
either a digit string, the empty-or-missing-attribute fallback `'0'`, or
free text with no leading digits, and a `NaN`/negative result never
compares equal to the positive row numbers it is tested against.) -/
def jsParseInt (s : String) : Option Nat :=
  let ds := s.data.takeWhile isDigitC
  if ds.isEmpty then none else some (digitsVal ds)

/-- Strip a literal leading character sequence; `some rest` on success. -/
def dropStart : List Char → List Char → Option (List Char)
  | [], s => some s
  | _ :: _, [] => none
  | p :: ps, c :: cs => if c = p then dropStart ps cs else none

/-- Strip a literal trailing character sequence; `some front` on success. -/
def dropEnd (suf s : List Char) : Option (List Char) :=
  (dropStart suf.reverse s.reverse).map List.reverse

/-- Lookup in an insertion-ordered association list (JavaScript
`Map.prototype.get`). -/
def mapGet (m : List (String × α)) (k : String) : Option α :=
  (m.find? (fun p => p.1 = k)).map (fun p => p.2)

/-- Update/insert in an insertion-ordered association list (JavaScript
`Map.prototype.set`): an existing key keeps its position, a new key is
appended. -/
def mapSet (m : List (String × α)) (k : String) (v : α) : List (String × α) :=
  match m with
  | [] => [(k, v)]
  | p :: rest => if p.1 = k then (k, v) :: rest else p :: mapSet rest k v

/-- Errors thrown by the library (each constructor corresponds to one
`throw new Error(...)` site). -/
inductive XErr where
  /-- `Sheet '<name>' not found` (parser) / `Sheet '<name>' not found in
  workbook` (workbook session). -/
  | sheetNotFound (name : String)
  /-- `Invalid cell reference: <ref>`. -/
  | invalidCellRef (ref : String)
  /-- `No sheetData found in XML`. -/
  | noSheetData
  /-- An I/O-level failure while reading the package (e.g. the
  `xl/workbook.xml` part is missing or unparsable). -/
  | fileReadError
  /-- `Failed to get updated XML for sheet <name>`. -/
  | xmlUnavailable (name : String)
deriving DecidableEq, Repr

/-! ## DOM model of a worksheet part -/

/-- A leaf child of a `<c>` cell element: a `<v>` (value) or `<f>`
(formula) element, identified by tag, carrying its text content. -/
structure XChild where
  tag : String
  text : String
deriving DecidableEq, Repr

/-- A `<c>` cell element: its attribute list (in document order) and its
child elements. -/
structure CellNode where
  attrs : List (String × String)
  children : List XChild
deriving DecidableEq, Repr

/-- A `<row>` element: its attribute list and its `<c>` children. -/
structure RowNode where
  attrs : List (String × String)
  cells : List CellNode
deriving DecidableEq, Repr

/-- A worksheet document: the `<sheetData>` section (if present) and the
remaining document content, which the mutation path never touches and the
serializer reproduces verbatim. -/
structure Worksheet where
  sheetData : Option (List RowNode)
  rest : List String
deriving DecidableEq, Repr

/-- DOM `getAttribute`: value of the first attribute with the given name,
`none` when absent. -/
def getAttr (attrs : List (String × String)) (name : String) : Option String :=
  (attrs.find? (fun p => p.1 = name)).map (fun p => p.2)

/-- DOM `setAttribute`: replace the value in place when the attribute
exists, append it otherwise. -/
def setAttr (attrs : List (String × String)) (name v : String) : List (String × String) :=
  match attrs with
  | [] => [(name, v)]
  | p :: rest => if p.1 = name then (name, v) :: rest else p :: setAttr rest name v

/-! ## NativeExcelParser: cell records and sheet parsing -/

/-- `ExcelCell` (`src/core/xmlParser.ts`): one in-memory cell record. -/
structure ExcelCell where
  value : String
  type : String
  formula : Option String
  style : Option String
deriving DecidableEq, Repr

/-- `ExcelSheet`: name, cell table and backing worksheet document.  The
source stores the document as its serialized string; in the tree model
`xml` is the document itself. -/
structure ExcelSheet where
  name : String
  data : List (String × ExcelCell)
  xml : Worksheet
deriving DecidableEq, Repr

/-- The `sheets` map of a `NativeExcelParser` instance. -/
structure ParserState where
  sheets : List (String × ExcelSheet)
deriving DecidableEq, Repr

/-- The cell-table entry derived from one `<c>` node in
`NativeExcelParser.parseSheet`: skipped when the `r` attribute is absent
or empty (falsy), otherwise value from the first `<v>` child (empty string
when there is none), type from the `t` attribute (default `"n"`), formula
from the first `<f>` child. -/
def cellEntry? (c : CellNode) : Option (String × ExcelCell) :=
  match getAttr c.attrs "r" with
  | none => none
  | some ref =>
    if ref = "" then none
    else
      some (ref,
        { value := ((c.children.find? (fun ch => ch.tag = "v")).map (fun ch => ch.text)).getD ""
          type := (getAttr c.attrs "t").getD "n"
          formula := (c.children.find? (fun ch => ch.tag = "f")).map (fun ch => ch.text)
          style := none })

/-- One iteration of the cell loop of `parseSheet`: insert the cell's
entry into the table, or leave the table unchanged when the cell is
skipped. -/
def tableInsert (acc : List (String × ExcelCell)) (c : CellNode) :
    List (String × ExcelCell) :=
  match cellEntry? c with
  | some rv => mapSet acc rv.1 rv.2
  | none => acc

/-- The cell table built by the row/cell loops of `parseSheet`. -/
def sheetDataMap (rows : List RowNode) : List (String × ExcelCell) :=
  rows.foldl (fun acc row => row.cells.foldl tableInsert acc) []

/-- `NativeExcelParser.parseSheet`: fails with `No sheetData found in XML`
when the document has no `<sheetData>`, otherwise registers the sheet
under its name with the derived cell table and the backing document. -/
def parseSheet (st : ParserState) (xml : Worksheet) (sheetName : String) :
    Except XErr ParserState :=
  match xml.sheetData with
  | none => .error .noSheetData
  | some rows =>
    .ok ⟨mapSet st.sheets sheetName
      { name := sheetName, data := sheetDataMap rows, xml := xml }⟩

/-! ## NativeExcelParser: cell reference validation and cell update -/

/-- `NativeExcelParser.parseCellRef`: the reference must match
`^([A-Z]+)(\d+)$` and the digit group must evaluate to a row number
`> 0`; on success the column-letter and row-digit groups are returned. -/
def parseCellRef (cellRef : String) : Except XErr (String × String) :=
  let letters := cellRef.data.takeWhile isUpperAZ
  let rest := cellRef.data.dropWhile isUpperAZ
  if letters.isEmpty || rest.isEmpty || !rest.all isDigitC then
    .error (.invalidCellRef cellRef)
  else if digitsVal rest = 0 then
    .error (.invalidCellRef cellRef)
  else
    .ok (String.mk letters, String.mk rest)

/-- Whether a cell reference passes `parseCellRef`. -/
def validCellRef (cellRef : String) : Bool :=
  match parseCellRef cellRef with
  | .ok _ => true
  | .error _ => false

/-- The numeric row of a `<row>` element as computed in
`findOrCreateCell`: `parseInt(row.getAttribute('r') || '0')`, i.e. a
missing or empty attribute falls back to `'0'`, and a non-numeric
attribute yields `NaN` (`none`), which compares equal to nothing. -/
def rowAttrNum (row : RowNode) : Option Nat :=
  let s := (getAttr row.attrs "r").getD ""
  jsParseInt (if s = "" then "0" else s)

/-- `NativeExcelParser.updateCellContent`: clear all children, force the
`t` attribute to `"s"` and the `s` attribute to `"1"`, and append a single
`<v>` child holding the new value. -/
def updateCellContent (c : CellNode) (value : String) : CellNode :=
  { attrs := setAttr (setAttr c.attrs "t" "s") "s" "1"
    children := [⟨"v", value⟩] }

/-- The fresh `<c>` element created by `findOrCreateCell` for an absent
reference, before `updateCellContent` runs on it. -/
def newCellNode (cellRef : String) : CellNode :=
  { attrs := [("r", cellRef)], children := [] }

/-- The cell loop of `findOrCreateCell` fused with `updateCellContent`:
the first cell whose `r` attribute equals `cellRef` exactly is rewritten;
when none matches, a fresh cell is appended at the end of the row. -/
def updateRowCells (cells : List CellNode) (cellRef value : String) : List CellNode :=
  match cells with
  | [] => [updateCellContent (newCellNode cellRef) value]
  | c :: rest =>
    if getAttr c.attrs "r" = some cellRef then
      updateCellContent c value :: rest
    else
      c :: updateRowCells rest cellRef value

/-- The row loop of `findOrCreateCell` fused with the cell update: the
first row whose numeric `r` attribute equals the reference's row number
receives the update; when none matches, a fresh row (its `r` attribute the
reference's digit group verbatim) is appended at the end of `sheetData`,
holding the fresh cell. -/
def updateRows (rows : List RowNode) (rowNum : Nat) (rowDigits cellRef value : String) :
    List RowNode :=
  match rows with
  | [] => [⟨[("r", rowDigits)], [updateCellContent (newCellNode cellRef) value]⟩]
  | r :: rest =>
    if rowAttrNum r = some rowNum then
      { r with cells := updateRowCells r.cells cellRef value } :: rest
    else
      r :: updateRows rest rowNum rowDigits cellRef value

/-- `NativeExcelParser.updateCell`: look the sheet up (else `Sheet '<name>'
not found`), re-parse its backing document, require `<sheetData>`, run
`findOrCreateCell` (which validates the reference) and
`updateCellContent`, store the re-serialized document, then update the
in-memory cell table: the existing record — or the default
`{value: '', type: 's'}` — gets its `value` field replaced. -/
def updateCell (st : ParserState) (sheetName cellRef value : String) :
    Except XErr ParserState :=
  match mapGet st.sheets sheetName with
  | none => .error (.sheetNotFound sheetName)
  | some sheet =>
    match sheet.xml.sheetData with
    | none => .error .noSheetData
    | some rows =>
      match parseCellRef cellRef with
      | .error e => .error e
      | .ok colRow =>
        let rows' := updateRows rows (digitsVal colRow.2.data) colRow.2 cellRef value
        let xml' : Worksheet := { sheet.xml with sheetData := some rows' }
        let old := (mapGet sheet.data cellRef).getD
          { value := "", type := "s", formula := none, style := none }
        let sheet' : ExcelSheet :=
          { sheet with xml := xml', data := mapSet sheet.data cellRef { old with value := value } }
        .ok ⟨mapSet st.sheets sheetName sheet'⟩

/-- `NativeExcelParser.getSheetNames`. -/
def getSheetNames (st : ParserState) : List String :=
  st.sheets.map (fun p => p.1)

/-- `NativeExcelParser.getSheetCount`. -/
def getSheetCount (st : ParserState) : Nat :=
  st.sheets.length

/-- `NativeExcelParser.getSheetXml`. -/
def getSheetXml (st : ParserState) (sheetName : String) : Option Worksheet :=
  (mapGet st.sheets sheetName).map (fun sh => sh.xml)

/-! ## ExcelWorkbook: the package and the read/update/write session

A package (the extracted ZIP archive) is an ordered list of named parts.
XML parts are carried in parsed form — parse/serialize of well-formed
documents is an external collaborator and the identity on this
representation — so a part is either the workbook manifest (its `<sheet>`
descriptors), a worksheet document, or opaque bytes. -/

/-- One `<sheet>` element of `xl/workbook.xml`: its `name` and `sheetId`
attributes. -/
structure SheetEntry where
  name : String
  sheetId : String
deriving DecidableEq, Repr

/-- The content of one package part. -/
inductive PartData where
  | wb (entries : List SheetEntry)
  | ws (doc : Worksheet)
  | bin (bytes : List Nat)
deriving DecidableEq, Repr

/-- A package: named parts in archive order (part name = path inside the
archive, e.g. `xl/worksheets/sheet1.xml`). -/
abbrev Package := List (String × PartData)

/-- Read a part by name (first match, as a file system path lookup). -/
def findPart (pkg : Package) (name : String) : Option PartData :=
  (pkg.find? (fun p => p.1 = name)).map (fun p => p.2)

/-- The `sheetInfo` map built in `readWorkbook`: every `<sheet>` element
carrying both attributes registers `name ↦ sheetId` (later duplicates of a
name overwrite earlier ones). -/
def buildSheetInfo (es : List SheetEntry) : List (String × String) :=
  es.foldl (fun m e => mapSet m e.name e.sheetId) []

/-- The digit group of a worksheet file name matching `^sheet(\d+)\.xml$`
(`ExcelWorkbook.getSheetNameFromWorkbook`), `none` when the name does not
match. -/
def sheetFileDigits? (fname : String) : Option String :=
  match dropStart "sheet".data fname.data with
  | none => none
  | some r1 =>
    match dropEnd ".xml".data r1 with
    | none => none
    | some core =>
      if core ≠ [] ∧ core.all isDigitC then some (String.mk core) else none

/-- `ExcelWorkbook.getSheetNameFromWorkbook`: extract the digit group from
the file name and return the name of the first manifest entry whose
`sheetId` equals it verbatim; `none` when the file name does not match or
no entry does. -/
def getSheetNameFromWorkbook (es : List SheetEntry) (fname : String) : Option String :=
  match sheetFileDigits? fname with
  | none => none
  | some d => (es.find? (fun e => e.sheetId = d)).map (fun e => e.name)

/-- The directory listing of `xl/worksheets/` seen by `readWorkbook`:
every part under that directory, as (file name, content). -/
def worksheetFiles (pkg : Package) : List (String × PartData) :=
  pkg.filterMap (fun p =>
    (dropStart "xl/worksheets/".data p.1.data).map (fun r => (String.mk r, p.2)))

/-- Whether a file name ends in `.xml` (the filter in `readWorkbook`'s
worksheet loop). -/
def endsWithXml (fname : String) : Bool :=
  (dropEnd ".xml".data fname.data).isSome

/-- The worksheet loop of `readWorkbook`: each `.xml` file whose name
resolves to a manifest sheet name is fed to
`NativeExcelParser.parseSheet`; other files are skipped.  A resolvable
file whose content is not a worksheet document parses to a document with
no `<sheetData>` and so raises that error. -/
def parseLoop (es : List SheetEntry) :
    List (String × PartData) → ParserState → Except XErr ParserState
  | [], st => .ok st
  | (fname, d) :: files, st =>
    if endsWithXml fname then
      match getSheetNameFromWorkbook es fname with
      | some n =>
        match d with
        | .ws w =>
          match parseSheet st w n with
          | .error e => .error e
          | .ok st' => parseLoop es files st'
        | _ => .error .noSheetData
      | none => parseLoop es files st
    else parseLoop es files st

/-- The state of an `ExcelWorkbook` session after `readWorkbook`. -/
structure WorkbookState where
  sheetInfo : List (String × String)
  engine : ParserState
deriving DecidableEq, Repr

/-- `ExcelWorkbook.readWorkbook`, with the fate of the scratch extraction
directory made explicit: the second component is `true` exactly when the
`fsp.rm(tempDir, ...)` call at the end of the function ran.  Reading
`xl/workbook.xml` fails when the part is absent (or is not workbook XML);
any error thrown inside the body propagates out of the `catch` block
without reaching the cleanup line. -/
def readWorkbookR (pkg : Package) : Except XErr WorkbookState × Bool :=
  match findPart pkg "xl/workbook.xml" with
  | some (.wb entries) =>
    let si := buildSheetInfo entries
    match parseLoop entries (worksheetFiles pkg) ⟨[]⟩ with
    | .error e => (.error e, false)
    | .ok ps => (.ok ⟨si, ps⟩, true)
  | _ => (.error .fileReadError, false)

/-- `ExcelWorkbook.readWorkbook`, result only. -/
def readWorkbook (pkg : Package) : Except XErr WorkbookState :=
  (readWorkbookR pkg).1

/-- `ExcelWorkbook.updateCell`: the session first requires the sheet to be
present in `sheetInfo`, then delegates to `NativeExcelParser.updateCell`,
then re-reads the sheet's XML as a success check. -/
def workbookUpdateCell (ws : WorkbookState) (sheetName cellRef value : String) :
    Except XErr WorkbookState :=
  if (mapGet ws.sheetInfo sheetName).isNone then
    .error (.sheetNotFound sheetName)
  else
    match updateCell ws.engine sheetName cellRef value with
    | .error e => .error e
    | .ok ps =>
      match getSheetXml ps sheetName with
      | none => .error (.xmlUnavailable sheetName)
      | some _ => .ok { ws with engine := ps }

/-- JavaScript string interpolation of `parseInt(id)` in
`getSheetNumberFromName` / `writeWorkbook`: a number renders in decimal,
`NaN` renders as `"NaN"`. -/
def renderParseInt (id : String) : String :=
  match jsParseInt id with
  | some k => Nat.repr k
  | none => "NaN"

/-- The sheet-override loop of `ExcelWorkbook.writeWorkbook`: for every
loaded sheet, resolve its id via `sheetInfo` (throwing when absent) and
schedule the part `xl/worksheets/sheet<parseInt(id)>.xml` to be rewritten
with the sheet's current document. -/
def writeOverrides (si : List (String × String)) :
    List (String × ExcelSheet) → Except XErr (List (String × Worksheet))
  | [] => .ok []
  | (n, sh) :: rest =>
    match mapGet si n with
    | none => .error (.sheetNotFound n)
    | some id =>
      match writeOverrides si rest with
      | .error e => .error e
      | .ok ovs => .ok (("xl/worksheets/sheet" ++ renderParseInt id ++ ".xml", sh.xml) :: ovs)

/-- Writing one override file into the extracted tree.  The archive entry
list was computed before this loop runs, so a name already in the package
gets the new content while a name not in the package never reaches the
output archive: the write is a pure in-place replacement. -/
def overwritePart (pkg : Package) (name : String) (w : Worksheet) : Package :=
  pkg.map (fun p => if p.1 = name then (name, PartData.ws w) else p)

/-- Apply the scheduled overrides in loop order. -/
def applyOverrides (pkg : Package) (ovs : List (String × Worksheet)) : Package :=
  ovs.foldl (fun acc nv => overwritePart acc nv.1 nv.2) pkg

/-- `ExcelWorkbook.writeWorkbook`: extract the original package, rewrite
the loaded worksheet parts, and archive the (pre-enumerated) entries into
the output package. -/
def writeWorkbookFn (pkg : Package) (ws : WorkbookState) : Except XErr Package :=
  match writeOverrides ws.sheetInfo ws.engine.sheets with
  | .error e => .error e
  | .ok ovs => .ok (applyOverrides pkg ovs)

/-- A list of strings with no duplicates (used for manifest sheet names
and for part names; both are unique in well-formed packages). -/
def keysUnique : List String → Bool
  | [] => true
  | x :: xs => !xs.contains x && keysUnique xs

/-- A canonical decimal id: nonempty, all digits, and equal to the decimal
rendering of its own value (hence no leading zeros). -/
def canonId (s : String) : Bool :=
  !s.data.isEmpty && s.data.all isDigitC && (Nat.repr (digitsVal s.data) == s)

/-- A valid package, for the round-trip property: it has a workbook
manifest whose sheet names are unique and whose sheet ids are canonical
decimal numerals, and its part names are unique. -/
def validPackage (pkg : Package) : Bool :=
  match findPart pkg "xl/workbook.xml" with
  | some (.wb es) =>
    keysUnique (es.map (fun e => e.name)) &&
    es.all (fun e => canonId e.sheetId) &&
    keysUnique (pkg.map (fun p => p.1))
  | _ => false

/-! ## Concrete fixtures

The worksheet used by the repository's own test suite
(`nativeExcelParser.test.ts`): one row `r="1"` holding `A1` (type `s`,
text `Test Value`) and `B1` (type `n`, text `42`). -/

/-- The `A1` cell of the test worksheet. -/
def testA1 : CellNode := ⟨[("r", "A1"), ("t", "s")], [⟨"v", "Test Value"⟩]⟩

/-- The `B1` cell of the test worksheet. -/
def testB1 : CellNode := ⟨[("r", "B1"), ("t", "n")], [⟨"v", "42"⟩]⟩

/-- The single row of the test worksheet. -/
def testRow : RowNode := ⟨[("r", "1")], [testA1, testB1]⟩

/-- The test worksheet document. -/
def testWs : Worksheet := ⟨some [testRow], []⟩

/-- The parser state after `parseSheet(testXmlContent, 'Sheet1')`. -/
def testState : ParserState :=
  ⟨[("Sheet1",
    { name := "Sheet1"
      data := [("A1", ⟨"Test Value", "s", none, none⟩), ("B1", ⟨"42", "n", none, none⟩)]
      xml := testWs })]⟩

/-! ## Association-map and list-matching lemmas -/

theorem mapGet_cons (p : String × α) (m : List (String × α)) (k : String) :
    mapGet (p :: m) k = if p.1 = k then some p.2 else mapGet m k := by
  by_cases h : p.1 = k <;> simp [mapGet, List.find?, h]

theorem mapGet_mapSet_self (m : List (String × α)) (k : String) (v : α) :
    mapGet (mapSet m k v) k = some v := by
  induction m with
  | nil => simp [mapSet, mapGet, List.find?]
  | cons p rest ih =>
    by_cases h : p.1 = k
    · simp [mapSet, h, mapGet, List.find?]
    · simp [mapSet, h, mapGet_cons, ih]

theorem mapGet_mapSet_ne (m : List (String × α)) (k k' : String) (v : α) (h : k' ≠ k) :
    mapGet (mapSet m k v) k' = mapGet m k' := by
  induction m with
  | nil => simp [mapSet, mapGet, List.find?, Ne.symm h]
  | cons p rest ih =>
    by_cases hp : p.1 = k
    · subst hp
      have hne : p.1 ≠ k' := fun hk => h hk.symm
      simp [mapSet, mapGet_cons, hne]
    · simp [mapSet, hp, mapGet_cons, ih]

theorem mem_mapSet (m : List (String × α)) (k : String) (v : α) (p : String × α)
    (h : p ∈ mapSet m k v) : p = (k, v) ∨ p ∈ m := by
  induction m with
  | nil => simpa [mapSet] using h
  | cons q rest ih =>
    by_cases hq : q.1 = k
    · simp only [mapSet, hq, if_pos rfl] at h
      rcases List.mem_cons.mp h with h | h
      · exact Or.inl h
      · exact Or.inr (List.mem_cons_of_mem _ h)
    · simp only [mapSet, hq, if_neg hq] at h
      rcases List.mem_cons.mp h with h | h
      · exact Or.inr (h ▸ List.mem_cons_self _ _)
      · rcases ih h with h | h
        · exact Or.inl h
        · exact Or.inr (List.mem_cons_of_mem _ h)

theorem dropStart_sound : ∀ (p s r : List Char), dropStart p s = some r → s = p ++ r
  | [], s, r, h => by simpa [dropStart] using (by simpa [dropStart] using h : s = r)
  | c :: cs, [], r, h => by simp [dropStart] at h
  | p :: ps, c :: cs, r, h => by
    by_cases hc : c = p
    · subst hc
      simp only [dropStart, if_pos rfl] at h
      simpa using dropStart_sound ps cs r h
    · simp [dropStart, hc] at h

theorem dropEnd_sound (suf s r : List Char) (h : dropEnd suf s = some r) : s = r ++ suf := by
  unfold dropEnd at h
  rcases Option.map_eq_some'.mp h with ⟨r', hr', rfl⟩
  have := dropStart_sound _ _ _ hr'
  have hs : s.reverse.reverse = (suf.reverse ++ r').reverse := by rw [this]
  simpa using hs

theorem string_ext {s t : String} (h : s.data = t.data) : s = t := by
  cases s; cases t; exact congrArg String.mk h

theorem string_data_append (s t : String) : (s ++ t).data = s.data ++ t.data := rfl

/-! ## Lemmas about the cell update loops -/

theorem updateRowCells_found (cpre : List CellNode) (c : CellNode) (cpost : List CellNode)
    (cellRef value : String)
    (hpre : ∀ c' ∈ cpre, getAttr c'.attrs "r" ≠ some cellRef)
    (hc : getAttr c.attrs "r" = some cellRef) :
    updateRowCells (cpre ++ c :: cpost) cellRef value
      = cpre ++ updateCellContent c value :: cpost := by
  induction cpre with
  | nil => simp [updateRowCells, hc]
  | cons c' rest ih =>
    have hne : getAttr c'.attrs "r" ≠ some cellRef := hpre c' (List.mem_cons_self _ _)
    simp only [List.cons_append, updateRowCells, if_neg hne, List.append_eq]
    rw [ih (fun x hx => hpre x (List.mem_cons_of_mem _ hx))]

theorem updateRowCells_absent (cells : List CellNode) (cellRef value : String)
    (h : ∀ c ∈ cells, getAttr c.attrs "r" ≠ some cellRef) :
    updateRowCells cells cellRef value
      = cells ++ [updateCellContent (newCellNode cellRef) value] := by
  induction cells with
  | nil => simp [updateRowCells]
  | cons c rest ih =>
    have hne : getAttr c.attrs "r" ≠ some cellRef := h c (List.mem_cons_self _ _)
    simp only [updateRowCells, if_neg hne, List.cons_append, List.append_eq]
    rw [ih (fun x hx => h x (List.mem_cons_of_mem _ hx))]

theorem updateRows_found (pre : List RowNode) (row : RowNode) (post : List RowNode)
    (rn : Nat) (rowDigits cellRef value : String)
    (hpre : ∀ r ∈ pre, rowAttrNum r ≠ some rn)
    (hrow : rowAttrNum row = some rn) :
    updateRows (pre ++ row :: post) rn rowDigits cellRef value
      = pre ++ { row with cells := updateRowCells row.cells cellRef value } :: post := by
  induction pre with
  | nil => simp [updateRows, hrow]
  | cons r rest ih =>
    have hne : rowAttrNum r ≠ some rn := hpre r (List.mem_cons_self _ _)
    simp only [List.cons_append, updateRows, if_neg hne, List.append_eq]
    rw [ih (fun x hx => hpre x (List.mem_cons_of_mem _ hx))]

theorem updateRows_absent (rows : List RowNode) (rn : Nat) (rowDigits cellRef value : String)
    (h : ∀ r ∈ rows, rowAttrNum r ≠ some rn) :
    updateRows rows rn rowDigits cellRef value
      = rows ++ [⟨[("r", rowDigits)], [updateCellContent (newCellNode cellRef) value]⟩] := by
  induction rows with
  | nil => simp [updateRows]
  | cons r rest ih =>
    have hne : rowAttrNum r ≠ some rn := h r (List.mem_cons_self _ _)
    simp only [updateRows, if_neg hne, List.cons_append, List.append_eq]
    rw [ih (fun x hx => h x (List.mem_cons_of_mem _ hx))]

/-- The only error `parseCellRef` can produce is `invalidCellRef` naming
the offending reference. -/
theorem parseCellRef_error_shape (cellRef : String) (e : XErr)
    (h : parseCellRef cellRef = .error e) : e = .invalidCellRef cellRef := by
  simp only [parseCellRef] at h
  split at h
  · exact (Except.error.inj h).symm
  · split at h
    · exact (Except.error.inj h).symm
    · exact absurd h (by simp)

/-- An invalid reference makes `parseCellRef` fail with `invalidCellRef`. -/
theorem parseCellRef_of_invalid (cellRef : String) (h : validCellRef cellRef = false) :
    parseCellRef cellRef = .error (.invalidCellRef cellRef) := by
  unfold validCellRef at h
  cases hp : parseCellRef cellRef with
  | ok v => rw [hp] at h; exact absurd h (by simp)
  | error e => exact congrArg Except.error (parseCellRef_error_shape cellRef e hp)

/-- The cell created for an absent reference carries exactly that
reference in its `r` attribute. -/
theorem getAttr_newCell (cellRef value : String) :
    getAttr (updateCellContent (newCellNode cellRef) value).attrs "r" = some cellRef := by
  simp [updateCellContent, newCellNode, setAttr, getAttr, List.find?]

/-- The test sheet as registered in the parser state (`testState`). -/
def testSheet1 : ExcelSheet :=
  { name := "Sheet1"
    data := [("A1", ⟨"Test Value", "s", none, none⟩), ("B1", ⟨"42", "n", none, none⟩)]
    xml := testWs }

/-- C2: for a sheet `S` and a reference `R` whose cell node is the one
`findOrCreateCell` locates (the first row whose numeric `r` attribute is
`R`'s row number contains a cell whose `r` attribute is exactly `R`),
`updateCell(S, R, v)` rewrites exactly that node — children cleared, `t`
forced to `"s"`, `s` set to `"1"`, a single `<v>` child holding `v` — and
leaves every other cell of `S`, the rest of `S`'s document, and every
other sheet unchanged. -/
theorem updateCell_existing_cell (st : ParserState)
    (sheetName cellRef value col rowDigits : String) (sheet : ExcelSheet)
    (pre : List RowNode) (row : RowNode) (post : List RowNode)
    (cpre : List CellNode) (c : CellNode) (cpost : List CellNode)
    (hs : mapGet st.sheets sheetName = some sheet)
    (hd : sheet.xml.sheetData = some (pre ++ row :: post))
    (hp : parseCellRef cellRef = .ok (col, rowDigits))
    (hpre : ∀ r ∈ pre, rowAttrNum r ≠ some (digitsVal rowDigits.data))
    (hrow : rowAttrNum row = some (digitsVal rowDigits.data))
    (hcells : row.cells = cpre ++ c :: cpost)
    (hcpre : ∀ c' ∈ cpre, getAttr c'.attrs "r" ≠ some cellRef)
    (hc : getAttr c.attrs "r" = some cellRef) :
    ∃ st' sheet', updateCell st sheetName cellRef value = .ok st' ∧
      mapGet st'.sheets sheetName = some sheet' ∧
      sheet'.xml.sheetData
        = some (pre ++ { row with cells := cpre ++ updateCellContent c value :: cpost } :: post) ∧
      sheet'.xml.rest = sheet.xml.rest ∧
      updateCellContent c value
        = { attrs := setAttr (setAttr c.attrs "t" "s") "s" "1", children := [⟨"v", value⟩] } ∧
      (∀ n, n ≠ sheetName → mapGet st'.sheets n = mapGet st.sheets n) := by
  have hrows : updateRows (pre ++ row :: post) (digitsVal rowDigits.data) rowDigits cellRef value
      = pre ++ { row with cells := cpre ++ updateCellContent c value :: cpost } :: post := by
    rw [updateRows_found pre row post _ rowDigits cellRef value hpre hrow, hcells,
      updateRowCells_found cpre c cpost cellRef value hcpre hc]
  have hmain : updateCell st sheetName cellRef value
      = .ok ⟨mapSet st.sheets sheetName
        { sheet with
          xml := ⟨some (pre ++ { row with cells := cpre ++ updateCellContent c value :: cpost } :: post),
            sheet.xml.rest⟩
          data := mapSet sheet.data cellRef
            { (mapGet sheet.data cellRef).getD ⟨"", "s", none, none⟩ with value := value } }⟩ := by
    simp only [updateCell, hs, hd, hp, hrows]
  exact ⟨_, _, hmain, mapGet_mapSet_self _ _ _, rfl, rfl, rfl,
    fun n hn => mapGet_mapSet_ne _ _ _ _ hn⟩

/-- Witness for C2 at the test worksheet: updating the existing cell `A1`. -/
theorem updateCell_existing_cell_witness :
    ∃ st' sheet', updateCell testState "Sheet1" "A1" "New Value" = .ok st' ∧
      mapGet st'.sheets "Sheet1" = some sheet' ∧
      sheet'.xml.sheetData
        = some ([] ++ { testRow with
            cells := [] ++ updateCellContent testA1 "New Value" :: [testB1] } :: []) ∧
      sheet'.xml.rest = testSheet1.xml.rest ∧
      updateCellContent testA1 "New Value"
        = { attrs := setAttr (setAttr testA1.attrs "t" "s") "s" "1"
            children := [⟨"v", "New Value"⟩] } ∧
      (∀ n, n ≠ "Sheet1" → mapGet st'.sheets n = mapGet testState.sheets n) :=
  updateCell_existing_cell testState "Sheet1" "A1" "New Value" "A" "1" testSheet1
    [] testRow [] [] testA1 [testB1]
    (by decide) (by decide) (by decide) (by decide) (by decide) (by decide) (by decide) (by decide)

/-- A list of rows containing a match for a row number splits at the
first matching row. -/
theorem rows_first_match (rn : Nat) : ∀ (rows : List RowNode),
    (∃ r ∈ rows, rowAttrNum r = some rn) →
    ∃ pre row post, rows = pre ++ row :: post ∧
      (∀ r ∈ pre, rowAttrNum r ≠ some rn) ∧ rowAttrNum row = some rn := by
  intro rows
  induction rows with
  | nil => rintro ⟨r, hr, _⟩; cases hr
  | cons a rest ih =>
    intro hex
    by_cases ha : rowAttrNum a = some rn
    · exact ⟨[], a, rest, rfl, by simp, ha⟩
    · obtain ⟨r0, hr0, hr0n⟩ := hex
      rcases List.mem_cons.mp hr0 with h | h
      · exact absurd (h ▸ hr0n) ha
      · obtain ⟨pre, row, post, h1, h2, h3⟩ := ih ⟨r0, h, hr0n⟩
        refine ⟨a :: pre, row, post, by rw [h1]; simp, ?_, h3⟩
        intro r hr
        rcases List.mem_cons.mp hr with h' | h'
        · exact h' ▸ ha
        · exact h2 r h'

/-- C3: for a sheet `S` and a valid reference `R` with no cell node in
`S`, `updateCell(S, R, v)` adds exactly one new cell node carrying
reference `R`: it is appended at the end of the first row whose numeric
`r` attribute matches `R`'s row, or in a fresh row appended at the end of
`sheetData` when no row matches (no re-sorting), and the flattened cell
sequence of the sheet is the old one with the single new cell inserted —
existing cells keep their reference attributes and relative order. -/
theorem updateCell_new_cell (st : ParserState)
    (sheetName cellRef value col rowDigits : String) (sheet : ExcelSheet)
    (rows : List RowNode)
    (hs : mapGet st.sheets sheetName = some sheet)
    (hd : sheet.xml.sheetData = some rows)
    (hp : parseCellRef cellRef = .ok (col, rowDigits))
    (habs : ∀ row ∈ rows, ∀ c ∈ row.cells, getAttr c.attrs "r" ≠ some cellRef) :
    ∃ st' sheet' rows', updateCell st sheetName cellRef value = .ok st' ∧
      mapGet st'.sheets sheetName = some sheet' ∧
      sheet'.xml.sheetData = some rows' ∧
      getAttr (updateCellContent (newCellNode cellRef) value).attrs "r" = some cellRef ∧
      ((∃ pre row post, rows = pre ++ row :: post ∧
          (∀ r ∈ pre, rowAttrNum r ≠ some (digitsVal rowDigits.data)) ∧
          rowAttrNum row = some (digitsVal rowDigits.data) ∧
          rows' = pre ++ { row with
            cells := row.cells ++ [updateCellContent (newCellNode cellRef) value] } :: post) ∨
        ((∀ r ∈ rows, rowAttrNum r ≠ some (digitsVal rowDigits.data)) ∧
          rows' = rows ++
            [⟨[("r", rowDigits)], [updateCellContent (newCellNode cellRef) value]⟩])) ∧
      (∃ l1 l2, rows.flatMap (fun r => r.cells) = l1 ++ l2 ∧
        rows'.flatMap (fun r => r.cells)
          = l1 ++ updateCellContent (newCellNode cellRef) value :: l2) := by
  have hmain : updateCell st sheetName cellRef value
      = .ok ⟨mapSet st.sheets sheetName
        { sheet with
          xml := ⟨some (updateRows rows (digitsVal rowDigits.data) rowDigits cellRef value),
            sheet.xml.rest⟩
          data := mapSet sheet.data cellRef
            { (mapGet sheet.data cellRef).getD ⟨"", "s", none, none⟩ with value := value } }⟩ := by
    simp only [updateCell, hs, hd, hp]
  refine ⟨_, _, updateRows rows (digitsVal rowDigits.data) rowDigits cellRef value, hmain,
    mapGet_mapSet_self _ _ _, rfl, getAttr_newCell cellRef value, ?_⟩
  by_cases hex : ∃ r ∈ rows, rowAttrNum r = some (digitsVal rowDigits.data)
  · obtain ⟨pre, row, post, hsplit, hpre, hrow⟩ := rows_first_match _ rows hex
    subst hsplit
    have hcells : ∀ c ∈ row.cells, getAttr c.attrs "r" ≠ some cellRef :=
      fun c hcm => habs row (by simp) c hcm
    constructor
    · exact Or.inl ⟨pre, row, post, rfl, hpre, hrow, by
        rw [updateRows_found pre row post _ rowDigits cellRef value hpre hrow,
          updateRowCells_absent row.cells cellRef value hcells]⟩
    · refine ⟨pre.flatMap (fun r => r.cells) ++ row.cells,
        post.flatMap (fun r => r.cells), by simp, ?_⟩
      rw [updateRows_found pre row post _ rowDigits cellRef value hpre hrow,
        updateRowCells_absent row.cells cellRef value hcells]
      simp
  · push_neg at hex
    constructor
    · exact Or.inr ⟨hex, updateRows_absent rows _ rowDigits cellRef value hex⟩
    · refine ⟨rows.flatMap (fun r => r.cells), [], by simp, ?_⟩
      rw [updateRows_absent rows _ rowDigits cellRef value hex]
      simp

/-- Witness for C3 at the test worksheet: creating `C1` in the existing
row 1. -/
theorem updateCell_new_cell_witness :
    ∃ st' sheet' rows', updateCell testState "Sheet1" "C1" "New Cell" = .ok st' ∧
      mapGet st'.sheets "Sheet1" = some sheet' ∧
      sheet'.xml.sheetData = some rows' ∧
      getAttr (updateCellContent (newCellNode "C1") "New Cell").attrs "r" = some "C1" ∧
      ((∃ pre row post, [testRow] = pre ++ row :: post ∧
          (∀ r ∈ pre, rowAttrNum r ≠ some (digitsVal "1".data)) ∧
          rowAttrNum row = some (digitsVal "1".data) ∧
          rows' = pre ++ { row with
            cells := row.cells ++ [updateCellContent (newCellNode "C1") "New Cell"] } :: post) ∨
        ((∀ r ∈ [testRow], rowAttrNum r ≠ some (digitsVal "1".data)) ∧
          rows' = [testRow] ++
            [⟨[("r", "1")], [updateCellContent (newCellNode "C1") "New Cell"]⟩])) ∧
      (∃ l1 l2, [testRow].flatMap (fun r => r.cells) = l1 ++ l2 ∧
        rows'.flatMap (fun r => r.cells)
          = l1 ++ updateCellContent (newCellNode "C1") "New Cell" :: l2) :=
  updateCell_new_cell testState "Sheet1" "C1" "New Cell" "C" "1" testSheet1 [testRow]
    (by decide) (by decide) (by decide) (by decide)

/-- C4: for a reference that does not match `uppercase letters` followed
by `digits` with value ≥ 1, `updateCell` on an existing sheet (whose
document has a `<sheetData>`, as every parsed sheet does) fails with
`InvalidCellReference` naming the reference; the failure is raised inside
`findOrCreateCell` before any assignment to the sheet's XML content or its
cell table, and the returned state is the untouched input state. -/
theorem updateCell_invalid_ref (st : ParserState) (sheetName cellRef value : String)
    (sheet : ExcelSheet) (rows : List RowNode)
    (hs : mapGet st.sheets sheetName = some sheet)
    (hd : sheet.xml.sheetData = some rows)
    (hv : validCellRef cellRef = false) :
    updateCell st sheetName cellRef value = .error (.invalidCellRef cellRef) := by
  simp only [updateCell, hs, hd, parseCellRef_of_invalid cellRef hv]

/-- Witness for C4: the references rejected in the spec's examples, tried
on the test worksheet. -/
theorem updateCell_invalid_ref_witness :
    updateCell testState "Sheet1" "InvalidRef" "Value" = .error (.invalidCellRef "InvalidRef") ∧
    updateCell testState "Sheet1" "" "v" = .error (.invalidCellRef "") ∧
    updateCell testState "Sheet1" "1A" "v" = .error (.invalidCellRef "1A") ∧
    updateCell testState "Sheet1" "A0" "v" = .error (.invalidCellRef "A0") :=
  ⟨updateCell_invalid_ref testState "Sheet1" "InvalidRef" "Value" testSheet1 [testRow]
      (by decide) (by decide) (by decide),
    updateCell_invalid_ref testState "Sheet1" "" "v" testSheet1 [testRow]
      (by decide) (by decide) (by decide),
    updateCell_invalid_ref testState "Sheet1" "1A" "v" testSheet1 [testRow]
      (by decide) (by decide) (by decide),
    updateCell_invalid_ref testState "Sheet1" "A0" "v" testSheet1 [testRow]
      (by decide) (by decide) (by decide)⟩

/-- C5: for a sheet name with no `sheetInfo` entry, the session-level
`updateCell` fails with `SheetNotFound` naming the sheet, for every
reference — valid or not — since the sheet-existence check precedes the
reference validation; no state is produced. -/
theorem workbookUpdateCell_missing_sheet (ws : WorkbookState)
    (sheetName cellRef value : String)
    (h : mapGet ws.sheetInfo sheetName = none) :
    workbookUpdateCell ws sheetName cellRef value = .error (.sheetNotFound sheetName) := by
  simp only [workbookUpdateCell, h, Option.isNone_none, if_pos]

/-- Witness for C5: a missing sheet combined with an invalid reference
still reports `SheetNotFound`. -/
theorem workbookUpdateCell_missing_sheet_witness :
    workbookUpdateCell ⟨[], ⟨[]⟩⟩ "NoSuchSheet" "1A" "v"
      = .error (.sheetNotFound "NoSuchSheet") ∧
    validCellRef "1A" = false :=
  ⟨workbookUpdateCell_missing_sheet ⟨[], ⟨[]⟩⟩ "NoSuchSheet" "1A" "v" (by decide), by decide⟩

/-- C10: on the test worksheet (row 1 holding `A1` and `B1`), the
non-canonical reference `A01` passes validation (leading zeros are allowed
and the row value is 1), resolves — numerically — to the existing row 1,
but the exact string comparison of cell `r` attributes misses the `A1`
node, so a second cell node `A01` is appended to the same row: the `A1`
node is untouched and two nodes now address column `A`, row 1. -/
theorem updateCell_noncanonical_ref_duplicates :
    validCellRef "A01" = true ∧
    parseCellRef "A01" = .ok ("A", "01") ∧
    parseCellRef "A1" = .ok ("A", "1") ∧
    digitsVal "01".data = digitsVal "1".data ∧
    updateCell testState "Sheet1" "A01" "X" = .ok ⟨[("Sheet1",
      { name := "Sheet1"
        data := [("A1", ⟨"Test Value", "s", none, none⟩), ("B1", ⟨"42", "n", none, none⟩),
                 ("A01", ⟨"X", "s", none, none⟩)]
        xml := ⟨some [⟨[("r", "1")],
          [testA1, testB1, ⟨[("r", "A01"), ("t", "s"), ("s", "1")], [⟨"v", "X"⟩]⟩]⟩], []⟩ })]⟩ := by
  refine ⟨by decide, by decide, by decide, by decide, by decide⟩

/-! ## C6: cell table vs. backing XML after an update -/

/-- The cell-table record held for `cellRef` after a successful
`updateCell`. -/
def cellRecordAfter (st : ParserState) (sheetName cellRef value : String) : Option ExcelCell :=
  match updateCell st sheetName cellRef value with
  | .ok st' => (mapGet st'.sheets sheetName).bind (fun sh => mapGet sh.data cellRef)
  | .error _ => none

/-- The `t` attribute of the first cell node with reference `cellRef` in
the backing document, after a successful `updateCell`. -/
def cellNodeTypeAfter (st : ParserState) (sheetName cellRef value : String) : Option String :=
  match updateCell st sheetName cellRef value with
  | .ok st' =>
    (mapGet st'.sheets sheetName).bind (fun sh =>
      sh.xml.sheetData.bind (fun rows =>
        ((rows.flatMap (fun r => r.cells)).find?
            (fun c => getAttr c.attrs "r" = some cellRef)).bind
          (fun c => getAttr c.attrs "t")))
  | .error _ => none

/-- Counterexample to C6: on the test worksheet, `updateCell` of the
numeric cell `B1` forces the XML node's type to `"s"` but the cell-table
entry keeps its parsed type `"n"` (only the `value` field is assigned), so
the two stores disagree. -/
theorem updateCell_cellTable_type_mismatch :
    cellRecordAfter testState "Sheet1" "B1" "Updated" = some ⟨"Updated", "n", none, none⟩ ∧
    cellNodeTypeAfter testState "Sheet1" "B1" "Updated" = some "s" ∧
    (cellRecordAfter testState "Sheet1" "B1" "Updated").map (fun e => e.type) ≠ some "s" :=
  ⟨by decide, by decide, by decide⟩

/-- C6 (amended): after a successful `updateCell(S, R, v)`, the cell-table
entry for `R` has its `value` field set to `v` and all other fields taken
from the prior entry — or from the default `{value: '', type: 's'}` when
`R` had no entry — so a fresh entry is `{value: v, type: "s"}` with no
formula, while a pre-existing entry keeps its old type and formula even
though the XML node's type was forced to `"s"`. -/
theorem updateCell_cellTable_value_only (st : ParserState)
    (sheetName cellRef value col rowDigits : String)
    (sheet : ExcelSheet) (rows : List RowNode)
    (hs : mapGet st.sheets sheetName = some sheet)
    (hd : sheet.xml.sheetData = some rows)
    (hp : parseCellRef cellRef = .ok (col, rowDigits)) :
    ∃ st' sheet', updateCell st sheetName cellRef value = .ok st' ∧
      mapGet st'.sheets sheetName = some sheet' ∧
      mapGet sheet'.data cellRef = some
        { (mapGet sheet.data cellRef).getD ⟨"", "s", none, none⟩ with value := value } := by
  have hmain : updateCell st sheetName cellRef value
      = .ok ⟨mapSet st.sheets sheetName
        { sheet with
          xml := ⟨some (updateRows rows (digitsVal rowDigits.data) rowDigits cellRef value),
            sheet.xml.rest⟩
          data := mapSet sheet.data cellRef
            { (mapGet sheet.data cellRef).getD ⟨"", "s", none, none⟩ with value := value } }⟩ := by
    simp only [updateCell, hs, hd, hp]
  exact ⟨_, _, hmain, mapGet_mapSet_self _ _ _, mapGet_mapSet_self _ _ _⟩

/-- Witness for the amended C6 at the test worksheet. -/
theorem updateCell_cellTable_value_only_witness :
    ∃ st' sheet', updateCell testState "Sheet1" "B1" "NewB" = .ok st' ∧
      mapGet st'.sheets "Sheet1" = some sheet' ∧
      mapGet sheet'.data "B1" = some
        { (mapGet testSheet1.data "B1").getD ⟨"", "s", none, none⟩ with value := "NewB" } :=
  updateCell_cellTable_value_only testState "Sheet1" "B1" "NewB" "B" "1" testSheet1 [testRow]
    (by decide) (by decide) (by decide)

/-! ## C7: which cell nodes get a cell-table record -/

/-- Whether a cell node contributes the key `ref` to the cell table. -/
def keyHit (c : CellNode) (ref : String) : Bool :=
  match cellEntry? c with
  | some rv => ref == rv.1
  | none => false

theorem isSome_mapGet_mapSet (m : List (String × α)) (k k' : String) (v : α) :
    (mapGet (mapSet m k v) k').isSome = (k' == k || (mapGet m k').isSome) := by
  by_cases h : k' = k
  · subst h; simp [mapGet_mapSet_self]
  · simp [mapGet_mapSet_ne m k k' v h, h]

theorem isSome_cellsFold (cells : List CellNode) (acc : List (String × ExcelCell))
    (ref : String) :
    (mapGet (cells.foldl tableInsert acc) ref).isSome
      = ((mapGet acc ref).isSome || cells.any (fun c => keyHit c ref)) := by
  induction cells generalizing acc with
  | nil => simp
  | cons c rest ih =>
    simp only [List.foldl_cons, List.any_cons]
    rw [ih]
    cases hE : cellEntry? c with
    | none => simp [tableInsert, keyHit, hE]
    | some rv =>
      simp [tableInsert, keyHit, hE, isSome_mapGet_mapSet,
        Bool.or_assoc, Bool.or_comm, Bool.or_left_comm]

theorem isSome_rowsFold (rows : List RowNode) (acc : List (String × ExcelCell))
    (ref : String) :
    (mapGet (rows.foldl (fun acc row => row.cells.foldl tableInsert acc) acc) ref).isSome
      = ((mapGet acc ref).isSome
          || rows.any (fun row => row.cells.any (fun c => keyHit c ref))) := by
  induction rows generalizing acc with
  | nil => simp
  | cons row rest ih =>
    simp only [List.foldl_cons, List.any_cons]
    rw [ih, isSome_cellsFold]
    simp [Bool.or_assoc]

theorem keyHit_iff (c : CellNode) (ref : String) :
    keyHit c ref = true ↔ (getAttr c.attrs "r" = some ref ∧ ref ≠ "") := by
  unfold keyHit cellEntry?
  cases hA : getAttr c.attrs "r" with
  | none => simp
  | some r =>
    by_cases hr : r = ""
    · subst hr
      simp only [if_pos rfl]
      constructor
      · intro h; cases h
      · rintro ⟨h1, h2⟩; exact absurd (Option.some.inj h1).symm h2
    · simp only [if_neg hr]
      constructor
      · intro h
        have : ref = r := by simpa using h
        exact ⟨this ▸ rfl, this ▸ hr⟩
      · rintro ⟨h1, h2⟩
        have : r = ref := Option.some.inj h1
        simp [this]

/-- Key membership in the parsed cell table: a record exists for `ref`
exactly when some cell node carries `ref` (nonempty) in its `r`
attribute. -/
theorem sheetDataMap_key_iff (rows : List RowNode) (ref : String) :
    (mapGet (sheetDataMap rows) ref).isSome = true ↔
      ∃ row ∈ rows, ∃ c ∈ row.cells, getAttr c.attrs "r" = some ref ∧ ref ≠ "" := by
  rw [sheetDataMap, isSome_rowsFold]
  simp only [mapGet, List.find?_nil, Option.map_none', Option.isSome_none, Bool.false_or]
  rw [List.any_eq_true]
  constructor
  · rintro ⟨row, hrow, hc⟩
    obtain ⟨c, hcm, hk⟩ := List.any_eq_true.mp hc
    exact ⟨row, hrow, c, hcm, (keyHit_iff c ref).mp hk⟩
  · rintro ⟨row, hrow, c, hcm, hk⟩
    exact ⟨row, hrow, List.any_eq_true.mpr ⟨c, hcm, (keyHit_iff c ref).mpr hk⟩⟩

theorem cellsFold_some (cells : List CellNode) (acc : List (String × ExcelCell))
    (ref : String) (e : ExcelCell)
    (h : mapGet (cells.foldl tableInsert acc) ref = some e) :
    (∃ c ∈ cells, cellEntry? c = some (ref, e)) ∨ mapGet acc ref = some e := by
  induction cells generalizing acc with
  | nil => exact Or.inr h
  | cons c rest ih =>
    simp only [List.foldl_cons] at h
    rcases ih (tableInsert acc c) h with h' | h'
    · obtain ⟨c0, hc0, he0⟩ := h'
      exact Or.inl ⟨c0, List.mem_cons_of_mem _ hc0, he0⟩
    · unfold tableInsert at h'
      cases hE : cellEntry? c with
      | none => rw [hE] at h'; exact Or.inr h'
      | some rv =>
        rw [hE] at h'
        by_cases hk : ref = rv.1
        · subst hk
          rw [mapGet_mapSet_self] at h'
          have he : rv.2 = e := Option.some.inj h'
          refine Or.inl ⟨c, List.mem_cons_self _ _, ?_⟩
          rw [hE, ← he]
        · rw [mapGet_mapSet_ne _ _ _ _ hk] at h'
          exact Or.inr h'

theorem rowsFold_some (rows : List RowNode) (acc : List (String × ExcelCell))
    (ref : String) (e : ExcelCell)
    (h : mapGet (rows.foldl (fun acc row => row.cells.foldl tableInsert acc) acc) ref
      = some e) :
    (∃ row ∈ rows, ∃ c ∈ row.cells, cellEntry? c = some (ref, e))
      ∨ mapGet acc ref = some e := by
  induction rows generalizing acc with
  | nil => exact Or.inr h
  | cons row rest ih =>
    simp only [List.foldl_cons] at h
    rcases ih _ h with h' | h'
    · obtain ⟨row0, hr0, hc0⟩ := h'
      exact Or.inl ⟨row0, List.mem_cons_of_mem _ hr0, hc0⟩
    · rcases cellsFold_some row.cells acc ref e h' with h'' | h''
      · obtain ⟨c0, hc0, he0⟩ := h''
        exact Or.inl ⟨row, List.mem_cons_self _ _, c0, hc0, he0⟩
      · exact Or.inr h''

/-- Every record of the parsed cell table is derived from some cell node
of the sheet. -/
theorem sheetDataMap_some (rows : List RowNode) (ref : String) (e : ExcelCell)
    (h : mapGet (sheetDataMap rows) ref = some e) :
    ∃ row ∈ rows, ∃ c ∈ row.cells, cellEntry? c = some (ref, e) := by
  rcases rowsFold_some rows [] ref e h with h' | h'
  · exact h'
  · cases h'

/-- A worksheet whose only cell node has a reference attribute but no
value node. -/
def noValueWs : Worksheet := ⟨some [⟨[("r", "1")], [⟨[("r", "A1")], []⟩]⟩], []⟩

/-- The cell-table record for `ref` after parsing `xml` into a fresh
parser. -/
def parsedRecord (xml : Worksheet) (sheetName ref : String) : Option ExcelCell :=
  match parseSheet ⟨[]⟩ xml sheetName with
  | .ok st => (mapGet st.sheets sheetName).bind (fun sh => mapGet sh.data ref)
  | .error _ => none

/-- Counterexample to C7: a cell node with no value node is still recorded
in the cell table (with value `""` and default type `"n"`); only cells
with no (or empty) `r` attribute are skipped. -/
theorem parseSheet_keeps_cell_without_value :
    (∀ row ∈ noValueWs.sheetData.getD [], ∀ c ∈ row.cells,
      c.children.find? (fun ch => ch.tag = "v") = none) ∧
    parsedRecord noValueWs "S" "A1" = some ⟨"", "n", none, none⟩ :=
  ⟨by decide, by decide⟩

/-- C7 (amended): parsing a worksheet creates a `CellRecord` for every
cell node carrying a nonempty `r` attribute — including cells with no
value node, whose record has value `""` — keyed by that reference, each
record derived from one such node; cells with no (or empty) reference
attribute are the only ones skipped. -/
theorem parseSheet_cellTable (st : ParserState) (xml : Worksheet) (sheetName : String)
    (st' : ParserState) (h : parseSheet st xml sheetName = .ok st') :
    ∃ rows, xml.sheetData = some rows ∧
      mapGet st'.sheets sheetName = some ⟨sheetName, sheetDataMap rows, xml⟩ ∧
      (∀ ref, (mapGet (sheetDataMap rows) ref).isSome = true ↔
        ∃ row ∈ rows, ∃ c ∈ row.cells, getAttr c.attrs "r" = some ref ∧ ref ≠ "") ∧
      (∀ ref e, mapGet (sheetDataMap rows) ref = some e →
        ∃ row ∈ rows, ∃ c ∈ row.cells, cellEntry? c = some (ref, e)) := by
  cases hx : xml.sheetData with
  | none => rw [parseSheet, hx] at h; cases h
  | some rows =>
    rw [parseSheet, hx] at h
    cases h
    exact ⟨rows, rfl, mapGet_mapSet_self _ _ _,
      fun ref => sheetDataMap_key_iff rows ref,
      fun ref e => sheetDataMap_some rows ref e⟩

/-- Witness for the amended C7 at the test worksheet. -/
theorem parseSheet_cellTable_witness :
    ∃ rows, testWs.sheetData = some rows ∧
      mapGet (⟨[("Sheet1", testSheet1)]⟩ : ParserState).sheets "Sheet1"
        = some ⟨"Sheet1", sheetDataMap rows, testWs⟩ ∧
      (∀ ref, (mapGet (sheetDataMap rows) ref).isSome = true ↔
        ∃ row ∈ rows, ∃ c ∈ row.cells, getAttr c.attrs "r" = some ref ∧ ref ≠ "") ∧
      (∀ ref e, mapGet (sheetDataMap rows) ref = some e →
        ∃ row ∈ rows, ∃ c ∈ row.cells, cellEntry? c = some (ref, e)) :=
  parseSheet_cellTable ⟨[]⟩ testWs "Sheet1" ⟨[("Sheet1", testSheet1)]⟩ (by decide)

/-! ## C9: scratch-area lifetime -/

/-- A package with no `xl/workbook.xml` part: reading it throws after the
scratch extraction directory has been created. -/
def pkgNoManifest : Package := [("xl/vbaProject.bin", .bin [0])]

/-- C9 fails on the code: when `readWorkbook` throws (here: the manifest
part is missing), the error propagates out of the `catch` block without
reaching the `fsp.rm(tempDir, ...)` call, which sits on the success path
only — the scratch extraction directory is not released. -/
theorem readWorkbook_leaks_scratch_on_error :
    (readWorkbookR pkgNoManifest).1 = .error .fileReadError ∧
    (readWorkbookR pkgNoManifest).2 = false :=
  ⟨by decide, by decide⟩

/-! ## C8: the write path leaves non-worksheet parts untouched -/

theorem dropStart_append : ∀ (p r : List Char), dropStart p (p ++ r) = some r
  | [], r => rfl
  | c :: cs, r => by simp [dropStart, dropStart_append cs r]

/-- Worksheet override file names factor through the
`xl/worksheets/` directory. -/
theorem worksheets_name_shape (x : String) :
    "xl/worksheets/sheet" ++ x ++ ".xml" = "xl/worksheets/" ++ ("sheet" ++ x ++ ".xml") := by
  have h : "xl/worksheets/sheet" = "xl/worksheets/" ++ "sheet" := by decide
  rw [h, String.append_assoc "xl/worksheets/" "sheet" x, String.append_assoc]

/-- A name that does not begin with `xl/worksheets/` is distinct from any
name in that directory. -/
theorem ne_of_dropStart_none (name tail : String)
    (h : dropStart "xl/worksheets/".data name.data = none) :
    name ≠ "xl/worksheets/" ++ tail := by
  intro he
  rw [he, string_data_append, dropStart_append] at h
  cases h

theorem findPart_cons (p : String × PartData) (pkg : Package) (name : String) :
    findPart (p :: pkg) name = if p.1 = name then some p.2 else findPart pkg name := by
  by_cases h : p.1 = name <;> simp [findPart, List.find?, h]

/-- Overwriting the part `n` does not change lookups of other names. -/
theorem findPart_overwritePart_ne (pkg : Package) (n name : String) (w : Worksheet)
    (h : name ≠ n) : findPart (overwritePart pkg n w) name = findPart pkg name := by
  induction pkg with
  | nil => rfl
  | cons p rest ih =>
    have hcons : overwritePart (p :: rest) n w
        = (if p.1 = n then (n, PartData.ws w) else p) :: overwritePart rest n w := rfl
    rw [hcons]
    by_cases hp : p.1 = n
    · rw [if_pos hp, findPart_cons, findPart_cons, if_neg (Ne.symm h),
        if_neg (fun (hne : p.1 = name) => h (hne ▸ hp)), ih]
    · rw [if_neg hp, findPart_cons, findPart_cons]
      by_cases hn : p.1 = name
      · rw [if_pos hn, if_pos hn]
      · rw [if_neg hn, if_neg hn, ih]

/-- Folding a batch of overrides does not change lookups of names outside
the batch. -/
theorem findPart_applyOverrides (ovs : List (String × Worksheet)) :
    ∀ (pkg : Package) (name : String), (∀ nv ∈ ovs, name ≠ nv.1) →
      findPart (applyOverrides pkg ovs) name = findPart pkg name := by
  induction ovs with
  | nil => intro pkg name h; rfl
  | cons nv rest ih =>
    intro pkg name h
    have hstep : applyOverrides pkg (nv :: rest)
        = applyOverrides (overwritePart pkg nv.1 nv.2) rest := rfl
    rw [hstep, ih _ name (fun x hx => h x (List.mem_cons_of_mem _ hx)),
      findPart_overwritePart_ne pkg nv.1 name nv.2 (h nv (List.mem_cons_self _ _))]

/-- Every part name scheduled by the write loop lies in the
`xl/worksheets/` directory. -/
theorem writeOverrides_names (si : List (String × String)) :
    ∀ (sheets : List (String × ExcelSheet)) (ovs : List (String × Worksheet)),
      writeOverrides si sheets = .ok ovs →
      ∀ nv ∈ ovs, ∃ tail : String, nv.1 = "xl/worksheets/" ++ tail := by
  intro sheets
  induction sheets with
  | nil =>
    intro ovs h nv hnv
    rw [writeOverrides] at h
    cases h
    cases hnv
  | cons p rest ih =>
    intro ovs h nv hnv
    obtain ⟨n, sh⟩ := p
    rw [writeOverrides] at h
    cases hsi : mapGet si n with
    | none => rw [hsi] at h; cases h
    | some id =>
      rw [hsi] at h
      cases hrest : writeOverrides si rest with
      | error e => rw [hrest] at h; cases h
      | ok ovs' =>
        rw [hrest] at h
        cases h
        rcases List.mem_cons.mp hnv with h' | h'
        · exact ⟨"sheet" ++ renderParseInt id ++ ".xml", by
            rw [h']; exact worksheets_name_shape (renderParseInt id)⟩
        · exact ih ovs' hrest nv h'

/-- C8: a successful `writeWorkbook` only rewrites parts inside the
`xl/worksheets/` directory; every other part — in particular the binary
macro part `xl/vbaProject.bin` and the relationship part `_rels/.rels`
that references it — is carried into the output byte-identical, with no
re-encoding. -/
theorem writeWorkbook_preserves_other_parts (pkg : Package) (ws : WorkbookState)
    (out : Package) (hw : writeWorkbookFn pkg ws = .ok out) :
    (∀ name, dropStart "xl/worksheets/".data name.data = none →
      findPart out name = findPart pkg name) ∧
    findPart out "xl/vbaProject.bin" = findPart pkg "xl/vbaProject.bin" ∧
    findPart out "_rels/.rels" = findPart pkg "_rels/.rels" := by
  have hmain : ∀ name, dropStart "xl/worksheets/".data name.data = none →
      findPart out name = findPart pkg name := by
    intro name hn
    unfold writeWorkbookFn at hw
    cases hov : writeOverrides ws.sheetInfo ws.engine.sheets with
    | error e => rw [hov] at hw; cases hw
    | ok ovs =>
      rw [hov] at hw
      cases hw
      apply findPart_applyOverrides
      intro nv hnv
      obtain ⟨tail, htail⟩ := writeOverrides_names ws.sheetInfo ws.engine.sheets ovs hov nv hnv
      rw [htail]
      exact ne_of_dropStart_none name tail hn
  exact ⟨hmain, hmain _ (by decide), hmain _ (by decide)⟩

/-! ## C1: helper lemmas for the no-edit round trip -/

theorem takeWhile_of_all (p : Char → Bool) :
    ∀ (l : List Char), l.all p = true → l.takeWhile p = l := by
  intro l
  induction l with
  | nil => intro _; rfl
  | cons c cs ih =>
    intro h
    rw [List.all_cons, Bool.and_eq_true] at h
    simp [List.takeWhile_cons, h.1, ih h.2]

/-- A canonical decimal id string renders back to itself through
`parseInt` and decimal printing. -/
theorem canonId_renderParseInt (d : String) (h : canonId d = true) :
    renderParseInt d = d := by
  unfold canonId at h
  rw [Bool.and_eq_true, Bool.and_eq_true] at h
  obtain ⟨⟨h1, h2⟩, h3⟩ := h
  unfold renderParseInt jsParseInt
  rw [takeWhile_of_all isDigitC d.data h2]
  simp only [Bool.not_eq_true'] at h1
  rw [if_neg (by simp [h1])]
  exact eq_of_beq h3

theorem find?_append_cases {p : α → Bool} :
    ∀ (l1 l2 : List α), (l1 ++ l2).find? p
      = match l1.find? p with
        | some a => some a
        | none => l2.find? p := by
  intro l1 l2
  induction l1 with
  | nil => rfl
  | cons a rest ih =>
    by_cases hp : p a
    · rw [List.cons_append, List.find?_cons_of_pos _ hp, List.find?_cons_of_pos _ hp]
    · rw [List.cons_append, List.find?_cons_of_neg _ hp, List.find?_cons_of_neg _ hp, ih]

theorem not_mem_of_contains_false {x : String} :
    ∀ {xs : List String}, xs.contains x = false → x ∉ xs := by
  intro xs
  induction xs with
  | nil => intro _ h; cases h
  | cons y ys ih =>
    intro h hm
    rw [List.contains_cons, Bool.or_eq_false_iff] at h
    rcases List.mem_cons.mp hm with h' | h'
    · rw [h'] at h
      exact absurd h.1 (by simp)
    · exact ih h.2 h'

theorem keysUnique_cons_iff {x : String} {xs : List String} :
    keysUnique (x :: xs) = true ↔ (xs.contains x = false ∧ keysUnique xs = true) := by
  rw [keysUnique, Bool.and_eq_true, Bool.not_eq_true']

/-- In a list with unique keys, two members with the same key coincide. -/
theorem keysUnique_inj {β : Type} (f : β → String) :
    ∀ (l : List β), keysUnique (l.map f) = true →
      ∀ a ∈ l, ∀ b ∈ l, f a = f b → a = b := by
  intro l
  induction l with
  | nil => intro _ a ha; cases ha
  | cons x xs ih =>
    intro hu a ha b hb hf
    rw [List.map_cons, keysUnique_cons_iff] at hu
    have hnm : f x ∉ xs.map f := not_mem_of_contains_false hu.1
    rcases List.mem_cons.mp ha with ha' | ha' <;> rcases List.mem_cons.mp hb with hb' | hb'
    · rw [ha', hb']
    · subst ha'
      exact absurd (hf ▸ List.mem_map_of_mem f hb') hnm
    · subst hb'
      exact absurd (hf ▸ List.mem_map_of_mem f ha') hnm
    · exact ih hu.2 a ha' b hb' hf

theorem mapGet_foldl_entries (es : List SheetEntry) :
    ∀ (acc : List (String × String)) (n : String),
      mapGet (es.foldl (fun m e => mapSet m e.name e.sheetId) acc) n
        = match es.reverse.find? (fun e => e.name = n) with
          | some e => some e.sheetId
          | none => mapGet acc n := by
  induction es with
  | nil => intro acc n; rfl
  | cons e tl ih =>
    intro acc n
    rw [List.foldl_cons, ih, List.reverse_cons, find?_append_cases]
    cases hf : tl.reverse.find? (fun x => x.name = n) with
    | some x => rfl
    | none =>
      by_cases hn : e.name = n
      · rw [List.find?_cons_of_pos _ (by simpa using hn)]
        subst hn
        exact mapGet_mapSet_self acc e.name e.sheetId
      · rw [List.find?_cons_of_neg _ (by simpa using hn), List.find?_nil]
        exact mapGet_mapSet_ne acc e.name n e.sheetId (fun hc => hn hc.symm)

/-- With unique manifest names, `sheetInfo` maps each entry's name to its
own sheet id. -/
theorem mapGet_buildSheetInfo {es : List SheetEntry} {e : SheetEntry}
    (hu : keysUnique (es.map (fun x => x.name)) = true) (he : e ∈ es) :
    mapGet (buildSheetInfo es) e.name = some e.sheetId := by
  rw [buildSheetInfo, mapGet_foldl_entries]
  cases hf : es.reverse.find? (fun x => x.name = e.name) with
  | none =>
    rw [List.find?_eq_none] at hf
    have hc := hf e (List.mem_reverse.mpr he)
    simp at hc
  | some x =>
    have hx : x ∈ es := List.mem_reverse.mp (List.mem_of_find?_eq_some hf)
    have hpx : x.name = e.name := by simpa using List.find?_some hf
    rw [keysUnique_inj (fun s => s.name) es hu x hx e he hpx]

theorem sheetFileDigits?_sound (fname d : String) (h : sheetFileDigits? fname = some d) :
    fname = "sheet" ++ d ++ ".xml" ∧ d.data ≠ [] ∧ d.data.all isDigitC = true := by
  unfold sheetFileDigits? at h
  split at h
  next => cases h
  next r1 h1 =>
    split at h
    next => cases h
    next core h2 =>
      split at h
      next hcore =>
        cases h
        have hfn : fname.data = "sheet".data ++ r1 := dropStart_sound _ _ _ h1
        have hr1 : r1 = core ++ ".xml".data := dropEnd_sound _ _ _ h2
        refine ⟨string_ext ?_, hcore.1, hcore.2⟩
        rw [string_data_append, string_data_append, hfn, hr1]
        rfl
      next => cases h

theorem worksheetFiles_mem {pkg : Package} {f : String × PartData}
    (h : f ∈ worksheetFiles pkg) :
    ("xl/worksheets/" ++ f.1, f.2) ∈ pkg := by
  unfold worksheetFiles at h
  obtain ⟨p, hp, he⟩ := List.mem_filterMap.mp h
  cases hd : dropStart "xl/worksheets/".data p.1.data with
  | none => rw [hd] at he; cases he
  | some r =>
    rw [hd] at he
    cases he
    have hdata : p.1.data = "xl/worksheets/".data ++ r := dropStart_sound _ _ _ hd
    have hp1 : p.1 = "xl/worksheets/" ++ String.mk r :=
      string_ext (by rw [string_data_append, hdata])
    simpa [← hp1] using hp

theorem findPart_of_mem {pkg : Package} {n : String} {c : PartData}
    (hu : keysUnique (pkg.map (fun p => p.1)) = true) (hm : (n, c) ∈ pkg) :
    findPart pkg n = some c := by
  induction pkg with
  | nil => cases hm
  | cons p rest ih =>
    rw [List.map_cons, keysUnique_cons_iff] at hu
    rcases List.mem_cons.mp hm with h | h
    · rw [← h, findPart_cons, if_pos rfl]
    · rw [findPart_cons]
      by_cases hp : p.1 = n
      · exact absurd (hp ▸ List.mem_map_of_mem (fun q => q.1) h)
          (not_mem_of_contains_false hu.1)
      · rw [if_neg hp]
        exact ih hu.2 h

theorem overwritePart_no_key {l : Package} {n : String} {w : Worksheet}
    (h : ∀ q ∈ l, q.1 ≠ n) : overwritePart l n w = l := by
  induction l with
  | nil => rfl
  | cons p rest ih =>
    have hcons : overwritePart (p :: rest) n w
        = (if p.1 = n then (n, PartData.ws w) else p) :: overwritePart rest n w := rfl
    rw [hcons, if_neg (h p (List.mem_cons_self _ _)),
      ih (fun q hq => h q (List.mem_cons_of_mem _ hq))]

/-- Writing back a part's own current content is the identity on the
extracted tree (part names unique). -/
theorem overwritePart_self {pkg : Package} {n : String} {w : Worksheet}
    (hu : keysUnique (pkg.map (fun p => p.1)) = true)
    (hm : findPart pkg n = some (.ws w)) : overwritePart pkg n w = pkg := by
  induction pkg with
  | nil => rfl
  | cons p rest ih =>
    rw [List.map_cons, keysUnique_cons_iff] at hu
    rw [findPart_cons] at hm
    have hcons : overwritePart (p :: rest) n w
        = (if p.1 = n then (n, PartData.ws w) else p) :: overwritePart rest n w := rfl
    by_cases hp : p.1 = n
    · rw [if_pos hp] at hm
      have hc : p.2 = PartData.ws w := Option.some.inj hm
      have hno : ∀ q ∈ rest, q.1 ≠ n := fun q hq hqn =>
        not_mem_of_contains_false hu.1 (by
          have hqm : q.1 ∈ rest.map (fun x => x.1) := List.mem_map_of_mem (fun x => x.1) hq
          rwa [hqn, ← hp] at hqm)
      rw [hcons, if_pos hp, overwritePart_no_key hno]
      have hpe : (n, PartData.ws w) = p := by rw [← hp, ← hc]
      rw [hpe]
    · rw [if_neg hp] at hm
      rw [hcons, if_neg hp, ih hu.2 hm]

theorem applyOverrides_self {pkg : Package} :
    ∀ {ovs : List (String × Worksheet)},
      keysUnique (pkg.map (fun p => p.1)) = true →
      (∀ nv ∈ ovs, findPart pkg nv.1 = some (.ws nv.2)) →
      applyOverrides pkg ovs = pkg := by
  intro ovs
  induction ovs with
  | nil => intro _ _; rfl
  | cons nv rest ih =>
    intro hu h
    have hstep : applyOverrides pkg (nv :: rest)
        = applyOverrides (overwritePart pkg nv.1 nv.2) rest := rfl
    rw [hstep, overwritePart_self hu (h nv (List.mem_cons_self _ _)),
      ih hu (fun x hx => h x (List.mem_cons_of_mem _ hx))]

/-- Invariant carried by every sheet loaded from a valid package: its
`sheetInfo` id is a canonical digit string and the package holds, under
the worksheet part name derived from that id, exactly the document the
sheet is backed by. -/
def GoodSheet (pkg : Package) (es : List SheetEntry) (q : String × ExcelSheet) : Prop :=
  ∃ d, canonId d = true ∧
    mapGet (buildSheetInfo es) q.1 = some d ∧
    findPart pkg ("xl/worksheets/sheet" ++ d ++ ".xml") = some (.ws q.2.xml)

/-- Every sheet registered by the worksheet loop of `readWorkbook`
satisfies `GoodSheet` when the package is well-formed. -/
theorem parseLoop_good (pkg : Package) (es : List SheetEntry)
    (hu : keysUnique (es.map (fun e => e.name)) = true)
    (hid : ∀ e ∈ es, canonId e.sheetId = true)
    (hpk : keysUnique (pkg.map (fun q => q.1)) = true) :
    ∀ (files : List (String × PartData)) (st st' : ParserState),
      (∀ f ∈ files, f ∈ worksheetFiles pkg) →
      (∀ q ∈ st.sheets, GoodSheet pkg es q) →
      parseLoop es files st = .ok st' →
      ∀ q ∈ st'.sheets, GoodSheet pkg es q := by
  intro files
  induction files with
  | nil =>
    intro st st' hf hg h
    cases h
    exact hg
  | cons f rest ih =>
    intro st st' hf hg h
    obtain ⟨fname, d⟩ := f
    rw [parseLoop] at h
    split at h
    case isFalse hx =>
      exact ih st st' (fun x hxm => hf x (List.mem_cons_of_mem _ hxm)) hg h
    case isTrue hx =>
      split at h
      case h_2 hn =>
        exact ih st st' (fun x hxm => hf x (List.mem_cons_of_mem _ hxm)) hg h
      case h_1 n hn =>
        split at h
        case h_2 => cases h
        case h_1 w =>
          split at h
          case h_1 e hps => cases h
          case h_2 st1 hps =>
            refine ih st1 st' (fun x hxm => hf x (List.mem_cons_of_mem _ hxm)) ?_ h
            intro q hq
            -- identify the new entry registered by parseSheet
            unfold parseSheet at hps
            cases hsd : w.sheetData with
            | none => rw [hsd] at hps; cases hps
            | some rows =>
              rw [hsd] at hps
              cases hps
              rcases mem_mapSet _ _ _ q hq with hq' | hq'
              · -- the freshly parsed sheet
                subst hq'
                -- dissect the file-name resolution
                unfold getSheetNameFromWorkbook at hn
                split at hn
                next => cases hn
                next dg hdig =>
                  cases hfind : es.find? (fun e => e.sheetId = dg) with
                  | none => rw [hfind] at hn; cases hn
                  | some e0 =>
                    rw [hfind] at hn
                    have hname : e0.name = n := by simpa using hn
                    have he0 : e0 ∈ es := List.mem_of_find?_eq_some hfind
                    have hid0 : e0.sheetId = dg := by simpa using List.find?_some hfind
                    refine ⟨dg, hid0 ▸ hid e0 he0, ?_, ?_⟩
                    · rw [← hname, mapGet_buildSheetInfo hu he0, hid0]
                    · have hfm : ("xl/worksheets/" ++ fname, PartData.ws w) ∈ pkg :=
                        worksheetFiles_mem (hf (fname, PartData.ws w) (List.mem_cons_self _ _))
                      obtain ⟨hfn, _, _⟩ := sheetFileDigits?_sound fname dg hdig
                      rw [hfn, ← worksheets_name_shape dg] at hfm
                      exact findPart_of_mem hpk hfm
              · exact hg q hq'

/-- Under `GoodSheet`, the write loop succeeds and every scheduled
override writes a part's own current content back to its own name. -/
theorem writeOverrides_of_good (pkg : Package) (es : List SheetEntry) :
    ∀ (sheets : List (String × ExcelSheet)),
      (∀ q ∈ sheets, GoodSheet pkg es q) →
      ∃ ovs, writeOverrides (buildSheetInfo es) sheets = .ok ovs ∧
        ∀ nv ∈ ovs, findPart pkg nv.1 = some (.ws nv.2) := by
  intro sheets
  induction sheets with
  | nil => exact fun _ => ⟨[], rfl, fun nv h => absurd h (List.not_mem_nil nv)⟩
  | cons q rest ih =>
    intro hg
    obtain ⟨n, sh⟩ := q
    obtain ⟨d, hcanon, hsi, hfind⟩ := hg (n, sh) (List.mem_cons_self _ _)
    obtain ⟨ovs, hovs, hprop⟩ := ih (fun x hx => hg x (List.mem_cons_of_mem _ hx))
    refine ⟨("xl/worksheets/sheet" ++ renderParseInt d ++ ".xml", sh.xml) :: ovs, ?_, ?_⟩
    · rw [writeOverrides, hsi, hovs]
    · intro nv hnv
      rcases List.mem_cons.mp hnv with h | h
      · rw [h, canonId_renderParseInt d hcanon]
        exact hfind
      · exact hprop nv h

/-- Unfolding equation for `readWorkbook` (the released-flag component
projected away). -/
theorem readWorkbook_eq (pkg : Package) :
    readWorkbook pkg
      = match findPart pkg "xl/workbook.xml" with
        | some (.wb entries) =>
          match parseLoop entries (worksheetFiles pkg) ⟨[]⟩ with
          | .error e => .error e
          | .ok ps => .ok ⟨buildSheetInfo entries, ps⟩
        | _ => .error .fileReadError := by
  unfold readWorkbook readWorkbookR
  cases h : findPart pkg "xl/workbook.xml" with
  | none => rfl
  | some pd =>
    cases pd with
    | wb entries =>
      show (match parseLoop entries (worksheetFiles pkg) ⟨[]⟩ with
          | .error e => ((.error e : Except XErr WorkbookState), false)
          | .ok ps => (.ok ⟨buildSheetInfo entries, ps⟩, true)).1
        = match parseLoop entries (worksheetFiles pkg) ⟨[]⟩ with
          | .error e => .error e
          | .ok ps => .ok ⟨buildSheetInfo entries, ps⟩
      cases parseLoop entries (worksheetFiles pkg) ⟨[]⟩ <;> rfl
    | ws w => rfl
    | bin b => rfl

/-- C1: opening a valid package and writing it back with no intervening
`updateCell` reproduces the input package part for part; re-reading the
output therefore yields the same session state — the same sheet count,
the same sheet names in the same order, and for every sheet the same cell
table (every cell's value and type). -/
theorem openWrite_preserves_workbook (pkg : Package) (ws : WorkbookState)
    (hv : validPackage pkg = true)
    (hr : readWorkbook pkg = .ok ws) :
    ∃ out, writeWorkbookFn pkg ws = .ok out ∧ out = pkg ∧
      readWorkbook out = .ok ws ∧
      ∀ ws', readWorkbook out = .ok ws' →
        getSheetNames ws'.engine = getSheetNames ws.engine ∧
        getSheetCount ws'.engine = getSheetCount ws.engine ∧
        ∀ n, (mapGet ws'.engine.sheets n).map (fun sh => sh.data)
          = (mapGet ws.engine.sheets n).map (fun sh => sh.data) := by
  have hr0 := hr
  rw [readWorkbook_eq] at hr
  split at hr
  case h_2 => cases hr
  case h_1 es heq =>
    rw [validPackage, heq] at hv
    have hv2 : (keysUnique (es.map (fun e => e.name))
        && es.all (fun e => canonId e.sheetId)
        && keysUnique (pkg.map (fun p => p.1))) = true := hv
    rw [Bool.and_eq_true, Bool.and_eq_true] at hv2
    obtain ⟨⟨hu, hall⟩, hpk⟩ := hv2
    have hid : ∀ e ∈ es, canonId e.sheetId = true := by
      intro e he
      exact List.all_eq_true.mp hall e he
    split at hr
    case h_1 e hpl => cases hr
    case h_2 ps hpl =>
      have hws : ws = ⟨buildSheetInfo es, ps⟩ := (Except.ok.inj hr).symm
      subst hws
      have hgood : ∀ q ∈ ps.sheets, GoodSheet pkg es q :=
        parseLoop_good pkg es hu hid hpk (worksheetFiles pkg) ⟨[]⟩ ps
          (fun f hf => hf) (fun q hq => absurd hq (List.not_mem_nil q)) hpl
      obtain ⟨ovs, hovs, hprop⟩ := writeOverrides_of_good pkg es ps.sheets hgood
      have hout : writeWorkbookFn pkg ⟨buildSheetInfo es, ps⟩ = .ok pkg := by
        unfold writeWorkbookFn
        rw [hovs]
        show Except.ok (applyOverrides pkg ovs) = Except.ok pkg
        rw [applyOverrides_self hpk hprop]
      refine ⟨pkg, hout, rfl, hr0, ?_⟩
      intro ws' h'
      rw [hr0] at h'
      have hws' : ws' = ⟨buildSheetInfo es, ps⟩ := (Except.ok.inj h').symm
      subst hws'
      exact ⟨rfl, rfl, fun n => rfl⟩

/-! ## Fixture package for the session-level claims

A minimal well-formed macro-enabled package: a manifest with one sheet, a
worksheet with a single cell, the binary macro part and the relationship
part. -/

/-- The `A1` cell of the fixture worksheet. -/
def fixA1 : CellNode := ⟨[("r", "A1"), ("t", "s")], [⟨"v", "Hello"⟩]⟩

/-- The fixture worksheet document. -/
def fixWs : Worksheet := ⟨some [⟨[("r", "1")], [fixA1]⟩], []⟩

/-- The fixture package. -/
def fixPkg : Package :=
  [("xl/workbook.xml", .wb [⟨"Sheet1", "1"⟩]),
   ("xl/worksheets/sheet1.xml", .ws fixWs),
   ("xl/vbaProject.bin", .bin [77, 66, 65]),
   ("_rels/.rels", .bin [1, 2, 3])]

/-- The session state `readWorkbook` produces on the fixture package. -/
def fixState : WorkbookState :=
  ⟨[("Sheet1", "1")],
   ⟨[("Sheet1", ⟨"Sheet1", [("A1", ⟨"Hello", "s", none, none⟩)], fixWs⟩)]⟩⟩

/-- Witness for C1 on the fixture package: the no-edit round trip
reproduces the package and the re-read state. -/
theorem openWrite_preserves_workbook_witness :
    validPackage fixPkg = true ∧
    (∃ out, writeWorkbookFn fixPkg fixState = .ok out ∧ out = fixPkg ∧
      readWorkbook out = .ok fixState ∧
      ∀ ws', readWorkbook out = .ok ws' →
        getSheetNames ws'.engine = getSheetNames fixState.engine ∧
        getSheetCount ws'.engine = getSheetCount fixState.engine ∧
        ∀ n, (mapGet ws'.engine.sheets n).map (fun sh => sh.data)
          = (mapGet fixState.engine.sheets n).map (fun sh => sh.data)) :=
  ⟨by decide, openWrite_preserves_workbook fixPkg fixState (by decide) (by decide)⟩

/-- The fixture worksheet after `updateCell('Sheet1', 'B1', 'World')`. -/
def fixWsEdited : Worksheet :=
  ⟨some [⟨[("r", "1")], [fixA1, ⟨[("r", "B1"), ("t", "s"), ("s", "1")], [⟨"v", "World"⟩]⟩]⟩], []⟩

/-- The fixture session state after that edit. -/
def fixEdited : WorkbookState :=
  ⟨[("Sheet1", "1")],
   ⟨[("Sheet1",
     { name := "Sheet1"
       data := [("A1", ⟨"Hello", "s", none, none⟩), ("B1", ⟨"World", "s", none, none⟩)]
       xml := fixWsEdited })]⟩⟩

/-- The output package of writing the edited session over the fixture
package: the worksheet part is rewritten, everything else passes
through. -/
def fixOut : Package :=
  [("xl/workbook.xml", .wb [⟨"Sheet1", "1"⟩]),
   ("xl/worksheets/sheet1.xml", .ws fixWsEdited),
   ("xl/vbaProject.bin", .bin [77, 66, 65]),
   ("_rels/.rels", .bin [1, 2, 3])]

/-- Witness for C8 on the fixture package: after an actual edit and write,
the macro binary part and the relationship part are byte-identical to the
input. -/
theorem writeWorkbook_preserves_other_parts_witness :
    workbookUpdateCell fixState "Sheet1" "B1" "World" = .ok fixEdited ∧
    writeWorkbookFn fixPkg fixEdited = .ok fixOut ∧
    ((∀ name, dropStart "xl/worksheets/".data name.data = none →
        findPart fixOut name = findPart fixPkg name) ∧
      findPart fixOut "xl/vbaProject.bin" = findPart fixPkg "xl/vbaProject.bin" ∧
      findPart fixOut "_rels/.rels" = findPart fixPkg "_rels/.rels") :=
  ⟨by decide, by decide,
    writeWorkbook_preserves_other_parts fixPkg fixEdited fixOut (by decide)⟩

end Excel
